import Mathlib

/-!
Shallow embedding of the `mathvideo` C++ image-compression core
(`src/cpp_implementation`), namespace `ic`.

Conventions of the embedding:
* `uint8_t` channels are `Fin 256`; narrowing conversions from wider integer
  types go through `ic.mk8` (reduction mod 256), exactly as the C++ implicit
  conversion to `uint8_t` does.
* `uint32_t` accumulators wrap modulo `2 ^ 32`; every addition is performed
  with `ic.addWrap`, mirroring the C++ unsigned-overflow semantics.
* `double` arithmetic is modelled by exact real arithmetic over `ℝ`; the
  decimal literals of the source (`441.67`, `0.8`, `0.3`, ...) denote the
  corresponding rationals.
* `int` coordinates are `ℤ`; `std::vector`s are `List`s; the
  `std::unordered_map<std::string, double>` similarity cache is an
  association list keyed by the (injectively string-encoded in C++) ordered
  pair of colors.
-/

namespace ic

/-- Narrowing conversion to `uint8_t` (used by the `Color` constructor when a
wider integer is passed, e.g. `Color(totalR / count, ...)`). -/
def mk8 (n : ℕ) : Fin 256 := ⟨n % 256, Nat.mod_lt _ (by norm_num)⟩

/-- `ic::Color`: three `uint8_t` channels, default-constructed to black. -/
structure Color where
  r : Fin 256
  g : Fin 256
  b : Fin 256
deriving DecidableEq, Repr

/-- `Color()`: the default (black) color, also the out-of-bounds sentinel. -/
def Color.black : Color := ⟨0, 0, 0⟩

/-- `ic::Point`: an integer coordinate pair. -/
structure Point where
  x : ℤ
  y : ℤ
deriving DecidableEq, Repr

/-- `ic::Image`: a `width × height` grid of colors, stored row-major. -/
structure Image where
  width : ℕ
  height : ℕ
  pixels : List Color

/-- Well-formed pixel store: the backing vector has exactly
`width * height` entries (guaranteed by the C++ constructors). -/
def Image.WF (img : Image) : Prop :=
  img.pixels.length = img.width * img.height

/-- `RegionGrower::isValidCoordinate` / the bounds test used by
`Image::getPixel` and `Image::setPixel`. -/
def Image.inBounds (img : Image) (x y : ℤ) : Prop :=
  0 ≤ x ∧ x < (img.width : ℤ) ∧ 0 ≤ y ∧ y < (img.height : ℤ)

instance (img : Image) (x y : ℤ) : Decidable (img.inBounds x y) := by
  unfold Image.inBounds; infer_instance

/-- `Image::getIndex`: row-major linear index `y * width + x`. -/
def Image.getIndex (img : Image) (x y : ℤ) : ℕ :=
  (y * (img.width : ℤ) + x).toNat

/-- `Image::getPixel`: out-of-bounds reads return the black sentinel. -/
def Image.getPixel (img : Image) (x y : ℤ) : Color :=
  if img.inBounds x y then img.pixels.getD (img.getIndex x y) Color.black
  else Color.black

/-- `Image::setPixel`: out-of-bounds writes are silently dropped. -/
def Image.setPixel (img : Image) (x y : ℤ) (color : Color) : Image :=
  if img.inBounds x y then
    { img with pixels := img.pixels.set (img.getIndex x y) color }
  else img

/-- One wrapping `uint32_t` addition. -/
def addWrap (a b : ℕ) : ℕ := (a + b) % 2 ^ 32

/-- `Image::calculateAverageColor`: wrapping 32-bit per-channel sums, then
truncating integer division by the point count, then narrowing to
`uint8_t`; the empty list yields the black sentinel. -/
def Image.calculateAverageColor (points : List Point) (image : Image) : Color :=
  if points = [] then Color.black
  else
    let totalR := points.foldl (fun a p => addWrap a (image.getPixel p.x p.y).r.val) 0
    let totalG := points.foldl (fun a p => addWrap a (image.getPixel p.x p.y).g.val) 0
    let totalB := points.foldl (fun a p => addWrap a (image.getPixel p.x p.y).b.val) 0
    let count := points.length
    ⟨mk8 (totalR / count), mk8 (totalG / count), mk8 (totalB / count)⟩

/-- `ic::colorSimilarity`: `1 - euclideanDistance / 441.67`.  The constant
`441.67` is the source's decimal truncation of `sqrt(255² · 3)`. -/
noncomputable def colorSimilarity (c1 c2 : Color) : ℝ :=
  let dr : ℝ := (c1.r.val : ℝ) - (c2.r.val : ℝ)
  let dg : ℝ := (c1.g.val : ℝ) - (c2.g.val : ℝ)
  let db : ℝ := (c1.b.val : ℝ) - (c2.b.val : ℝ)
  1 - Real.sqrt (dr * dr + dg * dg + db * db) / 441.67

/-- `ic::colorDistance`: Euclidean RGB distance, optionally with the
perceptual luma weights `{0.299, 0.587, 0.114}`. -/
noncomputable def colorDistance (c1 c2 : Color) (perceptual : Bool) : ℝ :=
  let dr : ℝ := (c1.r.val : ℝ) - (c2.r.val : ℝ)
  let dg : ℝ := (c1.g.val : ℝ) - (c2.g.val : ℝ)
  let db : ℝ := (c1.b.val : ℝ) - (c2.b.val : ℝ)
  if perceptual then Real.sqrt (0.299 * (dr * dr) + 0.587 * (dg * dg) + 0.114 * (db * db))
  else Real.sqrt (dr * dr + dg * dg + db * db)

/-- Modelled from the spec: `RegionGrower::getNeighbors` lives in
`region_grower.cpp`, which is not among the available sources.  Per the spec,
neighbor enumeration supports 4-connected or 8-connected adjacency and
"coordinates outside `[0,width)×[0,height)` are never returned as neighbors". -/
def getNeighbors (img : Image) (x y : ℤ) (include8Connected : Bool) : List Point :=
  let offsets : List (ℤ × ℤ) :=
    if include8Connected then
      [(-1, -1), (0, -1), (1, -1), (-1, 0), (1, 0), (-1, 1), (0, 1), (1, 1)]
    else [(0, -1), (-1, 0), (1, 0), (0, 1)]
  (offsets.map fun d => Point.mk (x + d.1) (y + d.2)).filter
    fun p => decide (img.inBounds p.x p.y)

/-- `Color::operator<`: lexicographic channel order with priority `(r, g, b)`. -/
def colorLt (a b : Color) : Prop :=
  a.r < b.r ∨ (a.r = b.r ∧ (a.g < b.g ∨ (a.g = b.g ∧ a.b < b.b)))

instance (a b : Color) : Decidable (colorLt a b) := by
  unfold colorLt; infer_instance

/-- The similarity cache `std::unordered_map<std::string, double>`, modelled
as an association list keyed by the ordered pair of colors (the C++ string
key `"r-g-b_r-g-b"` is an injective encoding of that pair). -/
abbrev SimCache := List ((Color × Color) × ℝ)

/-- Map lookup in the similarity cache. -/
def cacheFind : SimCache → Color × Color → Option ℝ
  | [], _ => none
  | (k, v) :: rest, key => if k = key then some v else cacheFind rest key

/-- `AdaptiveRegionGrower::getCachedSimilarity`: normalize the pair so that
the lexicographically smaller color comes first, look the key up, and on a
miss compute `colorSimilarity(c1, c2)` and store it.  Returns the similarity
together with the updated cache (the C++ method mutates the member cache). -/
noncomputable def getCachedSimilarity (cache : SimCache) (c1 c2 : Color) :
    ℝ × SimCache :=
  let key := if colorLt c2 c1 then (c2, c1) else (c1, c2)
  match cacheFind cache key with
  | some v => (v, cache)
  | none =>
    let similarity := colorSimilarity c1 c2
    (similarity, (key, similarity) :: cache)

/-- The colors sampled by `AdaptiveRegionGrower::calculateAdaptiveThreshold`:
the `(2·radius+1)²` window around `(x, y)`, clipped to the image bounds,
in the source's row-major loop order. -/
def windowColors (img : Image) (x y radius : ℤ) : List Color :=
  let xMin := max 0 (x - radius)
  let xMax := min ((img.width : ℤ) - 1) (x + radius)
  let yMin := max 0 (y - radius)
  let yMax := min ((img.height : ℤ) - 1) (y + radius)
  (List.range (yMax + 1 - yMin).toNat).flatMap fun dy =>
    (List.range (xMax + 1 - xMin).toNat).map fun dx =>
      img.getPixel (xMin + (dx : ℤ)) (yMin + (dy : ℤ))

/-- The `totalR` accumulation loop of `calculateAdaptiveThreshold`
(`uint32_t`, wrapping). -/
def wrapChannelSumR (cs : List Color) : ℕ := cs.foldl (fun a c => addWrap a c.r.val) 0

/-- The `totalG` accumulation loop. -/
def wrapChannelSumG (cs : List Color) : ℕ := cs.foldl (fun a c => addWrap a c.g.val) 0

/-- The `totalB` accumulation loop. -/
def wrapChannelSumB (cs : List Color) : ℕ := cs.foldl (fun a c => addWrap a c.b.val) 0

/-- `Color avgColor(totalR / count, totalG / count, totalB / count)` in
`calculateAdaptiveThreshold`. -/
def windowAvgColor (cs : List Color) : Color :=
  ⟨mk8 (wrapChannelSumR cs / cs.length), mk8 (wrapChannelSumG cs / cs.length),
   mk8 (wrapChannelSumB cs / cs.length)⟩

/-- The variance accumulation loop of `calculateAdaptiveThreshold` and its
normalization `variance /= (count * 3.0 * 255.0 * 255.0)`. -/
noncomputable def windowVariance (cs : List Color) : ℝ :=
  let avgColor := windowAvgColor cs
  (cs.foldl (fun a c =>
    a + (((c.r.val : ℝ) - (avgColor.r.val : ℝ)) * ((c.r.val : ℝ) - (avgColor.r.val : ℝ)) +
         ((c.g.val : ℝ) - (avgColor.g.val : ℝ)) * ((c.g.val : ℝ) - (avgColor.g.val : ℝ)) +
         ((c.b.val : ℝ) - (avgColor.b.val : ℝ)) * ((c.b.val : ℝ) - (avgColor.b.val : ℝ)))) 0)
  / ((cs.length : ℝ) * 3 * 255 * 255)

/-- `AdaptiveRegionGrower::calculateAdaptiveThreshold`: mean color of the
clipped window via wrapping `uint32_t` sums and truncating division, variance
of the sampled colors about that mean normalized by `count · 3 · 255²`, and
the blend `base + (1 - base) · (1 - min(1, variance·2)) · 0.3`. -/
noncomputable def calculateAdaptiveThreshold (img : Image)
    (similarityThreshold : ℝ) (x y radius : ℤ) : ℝ :=
  let localColors := windowColors img x y radius
  let varianceFactor := min 1 (windowVariance localColors * 2)
  similarityThreshold + (1 - similarityThreshold) * (1 - varianceFactor) * 0.3

/-- An entry of the growth priority queue (`PriorityItem`). -/
structure QItem where
  priority : ℝ
  point : Point
  similarity : ℝ

/-- `AdaptiveRegionGrower` configuration: the constructor arguments stored in
the instance. -/
structure AdaptiveRegionGrower where
  image : Image
  similarityThreshold : ℝ
  maxRegionSize : ℤ
  adaptiveMode : Bool

/-- `static_cast<size_t>(maxRegionSize_)`: conversion of a (possibly
negative) `int` to the 64-bit unsigned `size_t`. -/
def sizeTCast (m : ℤ) : ℕ := (m % 2 ^ 64).toNat

/-- The state of one `findRegion` call: the membership set, the output
sequence, the priority queue's backing container, and the similarity cache. -/
structure GrowState where
  region : List Point
  regionList : List Point
  queue : List QItem
  cache : SimCache

/-- The pre-loop seeding in `findRegion`: for each neighbor of the seed that
is not already processed, push `{1 - similarity, neighbor, similarity}` with
the cached similarity of the neighbor's color to the seed color. -/
noncomputable def seedPushes (img : Image) (seedColor : Color)
    (processed : ℤ → ℤ → Bool) : List Point → SimCache → List QItem × SimCache
  | [], cache => ([], cache)
  | n :: ns, cache =>
    if processed n.x n.y then seedPushes img seedColor processed ns cache
    else
      let r := getCachedSimilarity cache seedColor (img.getPixel n.x n.y)
      let rest := seedPushes img seedColor processed ns r.2
      (⟨1 - r.1, n, r.1⟩ :: rest.1, rest.2)

/-- The neighbor-enqueueing loop run after a candidate is accepted: skip
neighbors already in the region or processed; otherwise look up the cached
similarities to the seed color and to the accepted candidate's color, and
push the neighbor iff the better of the two is at least
`adaptiveThreshold * 0.8`. -/
noncomputable def neighborPushes (img : Image) (seedColor currentColor : Color)
    (adaptiveThreshold : ℝ) (processed : ℤ → ℤ → Bool) (region : List Point) :
    List Point → SimCache → List QItem × SimCache
  | [], cache => ([], cache)
  | n :: ns, cache =>
    if n ∈ region ∨ processed n.x n.y then
      neighborPushes img seedColor currentColor adaptiveThreshold processed region ns cache
    else
      let neighborColor := img.getPixel n.x n.y
      let r1 := getCachedSimilarity cache seedColor neighborColor
      let r2 := getCachedSimilarity r1.2 currentColor neighborColor
      let bestSimilarity := max r1.1 r2.1
      let rest := neighborPushes img seedColor currentColor adaptiveThreshold processed region ns r2.2
      if bestSimilarity ≥ adaptiveThreshold * 0.8 then
        (⟨1 - bestSimilarity, n, bestSimilarity⟩ :: rest.1, rest.2)
      else rest

/-- The body of the main growing loop, applied to the popped candidate:
lazy deletion of stale entries, the accept test
`similarityToSeed >= adaptiveThreshold` (with the adaptive threshold the
minimum of the base threshold computed at the seed and the local threshold at
the candidate when adaptive mode is on), and the neighbor enqueueing. -/
noncomputable def processCandidate (g : AdaptiveRegionGrower) (seedColor : Color)
    (baseAdaptiveThreshold : ℝ) (processed : ℤ → ℤ → Bool) (current : QItem)
    (s : GrowState) : GrowState :=
  if current.point ∈ s.region ∨ processed current.point.x current.point.y then s
  else
    let currentColor := g.image.getPixel current.point.x current.point.y
    let r1 := getCachedSimilarity s.cache seedColor currentColor
    let adaptiveThreshold : ℝ :=
      if g.adaptiveMode then
        min baseAdaptiveThreshold
          (calculateAdaptiveThreshold g.image g.similarityThreshold
            current.point.x current.point.y 3)
      else g.similarityThreshold
    if r1.1 ≥ adaptiveThreshold then
      let pushes := neighborPushes g.image seedColor currentColor adaptiveThreshold
        processed (current.point :: s.region)
        (getNeighbors g.image current.point.x current.point.y true) r1.2
      { region := current.point :: s.region,
        regionList := s.regionList ++ [current.point],
        queue := s.queue ++ pushes.1,
        cache := pushes.2 }
    else { s with cache := r1.2 }

/-- Pop the entry with the smallest `priority` (highest similarity) from the
queue's backing list, keeping the earliest entry on ties; returns the entry
and the remaining list.  Realizes `std::priority_queue::top/pop` (whose
tie-breaking among equal priorities is unspecified in C++). -/
noncomputable def popMin : List QItem → Option (QItem × List QItem)
  | [] => none
  | h :: t =>
    match popMin t with
    | none => some (h, [])
    | some (m, rest) => if m.priority < h.priority then some (m, h :: rest) else some (h, t)

/-- The main growing loop of `findRegion`:
`while (!priorityQueue.empty() && region.size() < static_cast<size_t>(maxRegionSize_))`.
The loop always terminates (each accepted point is a distinct in-bounds
pixel, so pushes are bounded); the fuel passed by `findRegion` exceeds any
possible number of iterations. -/
noncomputable def growLoop (g : AdaptiveRegionGrower) (seedColor : Color)
    (baseAdaptiveThreshold : ℝ) (processed : ℤ → ℤ → Bool) :
    ℕ → GrowState → List Point
  | 0, s => s.regionList
  | fuel + 1, s =>
    if ¬s.queue.isEmpty ∧ s.region.length < sizeTCast g.maxRegionSize then
      match popMin s.queue with
      | none => s.regionList
      | some (current, rest) =>
        growLoop g seedColor baseAdaptiveThreshold processed fuel
          (processCandidate g seedColor baseAdaptiveThreshold processed current
            { s with queue := rest })
    else s.regionList

/-- The state of `AdaptiveRegionGrower::findRegion` at loop entry: the seed
in the region set and output list, and the seed's admissible neighbors in
the priority queue. -/
noncomputable def initState (g : AdaptiveRegionGrower) (seedX seedY : ℤ)
    (processed : ℤ → ℤ → Bool) (cache0 : SimCache) : GrowState :=
  let seedColor := g.image.getPixel seedX seedY
  let init := seedPushes g.image seedColor processed
    (getNeighbors g.image seedX seedY true) cache0
  { region := [⟨seedX, seedY⟩], regionList := [⟨seedX, seedY⟩],
    queue := init.1, cache := init.2 }

/-- `AdaptiveRegionGrower::findRegion`.  `cache0` is the similarity cache of
the grower instance at call time (empty for a fresh instance). -/
noncomputable def findRegion (g : AdaptiveRegionGrower) (seedX seedY : ℤ)
    (processed : ℤ → ℤ → Bool) (cache0 : SimCache) : List Point :=
  let seedColor := g.image.getPixel seedX seedY
  let baseAdaptiveThreshold : ℝ :=
    if g.adaptiveMode then
      calculateAdaptiveThreshold g.image g.similarityThreshold seedX seedY 3
    else g.similarityThreshold
  growLoop g seedColor baseAdaptiveThreshold processed
    (9 * (g.image.width * g.image.height + 1))
    (initState g seedX seedY processed cache0)

/-! ### Spec-side definitions

These follow the wording of the specification (exact arithmetic, no
wraparound); the refinement theorems below compare them with the embedded
code. -/

/-- Exact (non-wrapping) sum of the red channel over a list of colors. -/
def channelSumR (cs : List Color) : ℕ := (cs.map fun c => c.r.val).sum

/-- Exact sum of the green channel over a list of colors. -/
def channelSumG (cs : List Color) : ℕ := (cs.map fun c => c.g.val).sum

/-- Exact sum of the blue channel over a list of colors. -/
def channelSumB (cs : List Color) : ℕ := (cs.map fun c => c.b.val).sum

/-- Spec: the red channel of the integer-truncated arithmetic mean of the
pixels at the given points. -/
def trueMeanR (points : List Point) (img : Image) : ℕ :=
  (points.map fun p => (img.getPixel p.x p.y).r.val).sum / points.length

/-- Spec: truncated mean, green channel. -/
def trueMeanG (points : List Point) (img : Image) : ℕ :=
  (points.map fun p => (img.getPixel p.x p.y).g.val).sum / points.length

/-- Spec: truncated mean, blue channel. -/
def trueMeanB (points : List Point) (img : Image) : ℕ :=
  (points.map fun p => (img.getPixel p.x p.y).b.val).sum / points.length

/-- Spec: "compute the mean color, then compute the channel-wise variance
normalized by `3·255²`" over a sampled list of colors. -/
noncomputable def specWindowVariance (cs : List Color) : ℝ :=
  let n := cs.length
  let mR := channelSumR cs / n
  let mG := channelSumG cs / n
  let mB := channelSumB cs / n
  (cs.map fun c =>
    ((c.r.val : ℝ) - (mR : ℝ)) * ((c.r.val : ℝ) - (mR : ℝ)) +
    ((c.g.val : ℝ) - (mG : ℝ)) * ((c.g.val : ℝ) - (mG : ℝ)) +
    ((c.b.val : ℝ) - (mB : ℝ)) * ((c.b.val : ℝ) - (mB : ℝ))).sum /
  ((n : ℝ) * 3 * 255 * 255)

/-- Spec: the adjusted threshold
`base + (1-base)·(1-varianceFactor)·0.3` with
`varianceFactor = min(1, variance·2)` over the clipped sampling window. -/
noncomputable def adaptiveThresholdSpec (img : Image) (base : ℝ) (x y radius : ℤ) : ℝ :=
  let variance := specWindowVariance (windowColors img x y radius)
  base + (1 - base) * (1 - min 1 (variance * 2)) * 0.3

/-! ### Concrete instances used by witnesses and counterexamples -/

/-- Pure red. -/
def red : Color := ⟨255, 0, 0⟩

/-- Pure blue. -/
def blue : Color := ⟨0, 0, 255⟩

/-- Pure white. -/
def white : Color := ⟨255, 255, 255⟩

/-- A 2×1 image whose two pixels are both red. -/
def img2x1 : Image := ⟨2, 1, [red, red]⟩

/-- The 4×4 image of the spec's concrete scenario: left 2×4 half uniformly
`(255,0,0)`, right 2×4 half uniformly `(0,0,255)` (row-major). -/
def img4x4 : Image :=
  ⟨4, 4, [red, red, blue, blue, red, red, blue, blue,
          red, red, blue, blue, red, red, blue, blue]⟩

/-- A 1×1 all-white image. -/
def img1x1 : Image := ⟨1, 1, [white]⟩

/-- The all-false processed mask. -/
def noneProcessed : ℤ → ℤ → Bool := fun _ _ => false

/-! ### Helper lemmas: pixel store -/

lemma getIndex_lt (img : Image) (hWF : img.WF) {x y : ℤ}
    (hb : img.inBounds x y) : img.getIndex x y < img.pixels.length := by
  obtain ⟨hx0, hxw, hy0, hyh⟩ := hb
  have hw0 : (0 : ℤ) ≤ (img.width : ℤ) := Int.ofNat_nonneg _
  have hlt : y * (img.width : ℤ) + x < (img.width : ℤ) * (img.height : ℤ) := by
    nlinarith [mul_le_mul_of_nonneg_right (by linarith : y ≤ (img.height : ℤ) - 1) hw0]
  have h0 : 0 ≤ y * (img.width : ℤ) + x := by positivity
  rw [hWF, Image.getIndex]
  have hcast : ((y * (img.width : ℤ) + x).toNat : ℤ) <
      ((img.width * img.height : ℕ) : ℤ) := by
    rw [Int.toNat_of_nonneg h0]
    push_cast
    linarith
  exact_mod_cast hcast

lemma getIndex_inj (img : Image) {x y x' y' : ℤ} (hb : img.inBounds x y)
    (hb' : img.inBounds x' y') (h : img.getIndex x y = img.getIndex x' y') :
    x = x' ∧ y = y' := by
  obtain ⟨hx0, hxw, hy0, hyh⟩ := hb
  obtain ⟨hx0', hxw', hy0', hyh'⟩ := hb'
  have hww : (0 : ℤ) < (img.width : ℤ) := by linarith
  have h0 : 0 ≤ y * (img.width : ℤ) + x := by positivity
  have h0' : 0 ≤ y' * (img.width : ℤ) + x' := by positivity
  have hz : y * (img.width : ℤ) + x = y' * (img.width : ℤ) + x' := by
    have := congrArg (fun n : ℕ => (n : ℤ)) h
    simpa [Image.getIndex, Int.toNat_of_nonneg h0, Int.toNat_of_nonneg h0'] using this
  have hmod : ∀ a b : ℤ, 0 ≤ a → a < (img.width : ℤ) →
      (b * (img.width : ℤ) + a) % (img.width : ℤ) = a := by
    intro a b ha hab
    rw [add_comm, Int.add_mul_emod_self, Int.emod_eq_of_lt ha hab]
  have hdiv : ∀ a b : ℤ, 0 ≤ a → a < (img.width : ℤ) →
      (b * (img.width : ℤ) + a) / (img.width : ℤ) = b := by
    intro a b ha hab
    rw [add_comm, Int.add_mul_ediv_right _ _ (by omega : (img.width : ℤ) ≠ 0),
      Int.ediv_eq_zero_of_lt ha hab, zero_add]
  constructor
  · have := congrArg (fun t => t % (img.width : ℤ)) hz
    simpa [hmod x y hx0 hxw, hmod x' y' hx0' hxw'] using this
  · have := congrArg (fun t => t / (img.width : ℤ)) hz
    simpa [hdiv x y hx0 hxw, hdiv x' y' hx0' hxw'] using this

/-- C9: out-of-bounds reads return the black sentinel and out-of-bounds
writes are no-ops; in-bounds reads return the stored pixel and in-bounds
writes update exactly the addressed pixel. -/
theorem getPixel_setPixel_spec (img : Image) (x y : ℤ) (c : Color) :
    (¬img.inBounds x y → img.getPixel x y = Color.black ∧ img.setPixel x y c = img)
    ∧ ∀ hWF : img.WF, ∀ hb : img.inBounds x y,
        img.getPixel x y = img.pixels.get ⟨img.getIndex x y, getIndex_lt img hWF hb⟩
        ∧ (img.setPixel x y c).width = img.width
        ∧ (img.setPixel x y c).height = img.height
        ∧ ∀ x' y', img.inBounds x' y' →
            (img.setPixel x y c).getPixel x' y' =
              if x' = x ∧ y' = y then c else img.getPixel x' y' := by
  constructor
  · intro hnb
    constructor
    · simp [Image.getPixel, hnb]
    · simp [Image.setPixel, hnb]
  · intro hWF hb
    refine ⟨?_, ?_, ?_, ?_⟩
    · have hlt := getIndex_lt img hWF hb
      rw [Image.getPixel, if_pos hb, List.getD_eq_getElem _ _ hlt]
      simp [List.get_eq_getElem]
    · simp [Image.setPixel, hb]
    · simp [Image.setPixel, hb]
    · intro x' y' hb'
      have hset : img.setPixel x y c =
          { img with pixels := img.pixels.set (img.getIndex x y) c } := by
        simp [Image.setPixel, hb]
      have hb'set : ({ img with pixels := img.pixels.set (img.getIndex x y) c } :
          Image).inBounds x' y' := hb'
      have hidx : ({ img with pixels := img.pixels.set (img.getIndex x y) c } :
          Image).getIndex x' y' = img.getIndex x' y' := rfl
      have hlt' : img.getIndex x' y' < img.pixels.length := getIndex_lt img hWF hb'
      have hlt : img.getIndex x' y' < (img.pixels.set (img.getIndex x y) c).length := by
        simpa using hlt'
      rw [hset]
      by_cases hxy : x' = x ∧ y' = y
      · obtain ⟨hx, hy⟩ := hxy
        subst hx; subst hy
        rw [if_pos ⟨rfl, rfl⟩, Image.getPixel, if_pos hb'set, hidx,
          List.getD_eq_getElem _ _ hlt, List.getElem_set_self hlt]
      · have hne : img.getIndex x' y' ≠ img.getIndex x y := by
          intro hEq
          exact hxy (getIndex_inj img hb' hb hEq)
        rw [if_neg hxy, Image.getPixel, if_pos hb'set, hidx,
          List.getD_eq_getElem _ _ hlt, List.getElem_set_ne (Ne.symm hne),
          Image.getPixel, if_pos hb', List.getD_eq_getElem _ _ hlt']

/-- C9 witness: concrete instantiations of `getPixel_setPixel_spec` on a
2×2 image. -/
theorem getPixel_setPixel_spec_witness :
    ((⟨2, 2, [red, blue, white, red]⟩ : Image).getPixel (-1) 0 = Color.black
      ∧ (⟨2, 2, [red, blue, white, red]⟩ : Image).setPixel 2 1 red =
        (⟨2, 2, [red, blue, white, red]⟩ : Image))
    ∧ ((⟨2, 2, [red, blue, white, red]⟩ : Image).setPixel 1 0 white).getPixel 1 0 = white
    ∧ ((⟨2, 2, [red, blue, white, red]⟩ : Image).setPixel 1 0 white).getPixel 0 1 =
        (⟨2, 2, [red, blue, white, red]⟩ : Image).getPixel 0 1 := by
  have h1 := (getPixel_setPixel_spec ⟨2, 2, [red, blue, white, red]⟩ (-1) 0 red).1
    (by decide)
  have h2 := (getPixel_setPixel_spec ⟨2, 2, [red, blue, white, red]⟩ 2 1 red).1
    (by decide)
  have h3 := (getPixel_setPixel_spec ⟨2, 2, [red, blue, white, red]⟩ 1 0 white).2
    (by rfl) (by decide)
  refine ⟨⟨h1.1, h2.2⟩, ?_, ?_⟩
  · rw [h3.2.2.2 1 0 (by decide)]; simp
  · rw [h3.2.2.2 0 1 (by decide)]; simp

/-! ### Color similarity (C3) -/

lemma Color.ext3 {a b : Color} (hr : a.r = b.r) (hg : a.g = b.g)
    (hb : a.b = b.b) : a = b := by
  cases a; cases b; simp_all

lemma chan_nonneg (v : Fin 256) : (0 : ℝ) ≤ (v.val : ℝ) := by positivity

lemma chan_le (v : Fin 256) : ((v.val : ℕ) : ℝ) ≤ 255 := by
  have := v.isLt
  exact_mod_cast Nat.lt_succ_iff.mp this

/-- C3 counterexample: the similarity of pure black and pure white is
strictly negative (the exact maximal distance `sqrt(255²·3) ≈ 441.6730`
exceeds the source's constant `441.67`), so it is neither `0.0` nor in
`[0,1]`. -/
theorem colorSimilarity_black_white_neg :
    colorSimilarity ⟨0, 0, 0⟩ ⟨255, 255, 255⟩ < 0 := by
  have hval : (((255 : Fin 256).val : ℕ) : ℝ) = 255 := by
    rw [show (255 : Fin 256).val = 255 from rfl]; norm_num
  have hval0 : (((0 : Fin 256).val : ℕ) : ℝ) = 0 := by
    rw [show (0 : Fin 256).val = 0 from rfl]; norm_num
  unfold colorSimilarity
  simp only [hval, hval0]
  have harg : ((0 : ℝ) - 255) * ((0 : ℝ) - 255) + ((0 : ℝ) - 255) * ((0 : ℝ) - 255) +
      ((0 : ℝ) - 255) * ((0 : ℝ) - 255) = 195075 := by norm_num
  rw [harg]
  have hs : (441.67 : ℝ) < Real.sqrt 195075 := by
    rw [show (195075 : ℝ) = 195075 from rfl]
    have := (Real.lt_sqrt (by norm_num : (0 : ℝ) ≤ 441.67)).mpr
      (by norm_num : (441.67 : ℝ) ^ 2 < 195075)
    exact this
  have hdiv : (1 : ℝ) < Real.sqrt 195075 / 441.67 :=
    (one_lt_div (by norm_num : (0 : ℝ) < 441.67)).mpr hs
  linarith

lemma sqrt_bound_aux (d : ℝ) (h0 : 0 ≤ d) (hb : d ≤ 195075) :
    1 - Real.sqrt d / 441.67 ≤ 1
    ∧ -1 / 100000 < 1 - Real.sqrt d / 441.67
    ∧ (1 - Real.sqrt d / 441.67 = 1 ↔ d = 0) := by
  have hsn := Real.sqrt_nonneg d
  refine ⟨?_, ?_, ?_⟩
  · have : 0 ≤ Real.sqrt d / 441.67 := div_nonneg hsn (by norm_num)
    linarith
  · have hsq : Real.sqrt d ≤ 441.673 := by
      rw [Real.sqrt_le_iff]
      constructor
      · norm_num
      · nlinarith
    have hdivle : Real.sqrt d / 441.67 ≤ 441.673 / 441.67 := by
      gcongr
    have : (441.673 : ℝ) / 441.67 < 1 + 1 / 100000 := by norm_num
    linarith
  · constructor
    · intro h
      have hz : Real.sqrt d / 441.67 = 0 := by linarith
      have hz' : Real.sqrt d = 0 := by
        rcases div_eq_zero_iff.mp hz with h' | h'
        · exact h'
        · norm_num at h'
      exact (Real.sqrt_eq_zero h0).mp hz'
    · intro h
      rw [h]
      norm_num [Real.sqrt_zero]

lemma sum_sq_eq_zero {a b c : ℝ} (h : a * a + b * b + c * c = 0) :
    a = 0 ∧ b = 0 ∧ c = 0 := by
  have ha := mul_self_nonneg a
  have hb := mul_self_nonneg b
  have hc := mul_self_nonneg c
  refine ⟨mul_self_eq_zero.mp ?_, mul_self_eq_zero.mp ?_, mul_self_eq_zero.mp ?_⟩ <;> linarith

lemma sq_diff_le_65025 {a b : ℝ} (ha0 : 0 ≤ a) (ha : a ≤ 255) (hb0 : 0 ≤ b)
    (hb : b ≤ 255) : (a - b) * (a - b) ≤ 65025 := by nlinarith

/-- C3 (amended): `colorSimilarity` equals `1 - d/441.67` for the Euclidean
RGB distance `d`; it is at most `1`, greater than `-1/100000` (but not
necessarily nonnegative), and equals `1` exactly for identical colors. -/
theorem colorSimilarity_range_and_identity (c1 c2 : Color) :
    colorSimilarity c1 c2 =
      1 - Real.sqrt
        (((c1.r.val : ℝ) - (c2.r.val : ℝ)) * ((c1.r.val : ℝ) - (c2.r.val : ℝ)) +
         ((c1.g.val : ℝ) - (c2.g.val : ℝ)) * ((c1.g.val : ℝ) - (c2.g.val : ℝ)) +
         ((c1.b.val : ℝ) - (c2.b.val : ℝ)) * ((c1.b.val : ℝ) - (c2.b.val : ℝ))) / 441.67
    ∧ colorSimilarity c1 c2 ≤ 1
    ∧ -1 / 100000 < colorSimilarity c1 c2
    ∧ (colorSimilarity c1 c2 = 1 ↔ c1 = c2) := by
  have hform : colorSimilarity c1 c2 =
      1 - Real.sqrt
        (((c1.r.val : ℝ) - (c2.r.val : ℝ)) * ((c1.r.val : ℝ) - (c2.r.val : ℝ)) +
         ((c1.g.val : ℝ) - (c2.g.val : ℝ)) * ((c1.g.val : ℝ) - (c2.g.val : ℝ)) +
         ((c1.b.val : ℝ) - (c2.b.val : ℝ)) * ((c1.b.val : ℝ) - (c2.b.val : ℝ))) / 441.67 := rfl
  have hd0 : 0 ≤
      ((c1.r.val : ℝ) - (c2.r.val : ℝ)) * ((c1.r.val : ℝ) - (c2.r.val : ℝ)) +
      ((c1.g.val : ℝ) - (c2.g.val : ℝ)) * ((c1.g.val : ℝ) - (c2.g.val : ℝ)) +
      ((c1.b.val : ℝ) - (c2.b.val : ℝ)) * ((c1.b.val : ℝ) - (c2.b.val : ℝ)) := by
    have h1 := mul_self_nonneg ((c1.r.val : ℝ) - (c2.r.val : ℝ))
    have h2 := mul_self_nonneg ((c1.g.val : ℝ) - (c2.g.val : ℝ))
    have h3 := mul_self_nonneg ((c1.b.val : ℝ) - (c2.b.val : ℝ))
    linarith
  have hbound :
      ((c1.r.val : ℝ) - (c2.r.val : ℝ)) * ((c1.r.val : ℝ) - (c2.r.val : ℝ)) +
      ((c1.g.val : ℝ) - (c2.g.val : ℝ)) * ((c1.g.val : ℝ) - (c2.g.val : ℝ)) +
      ((c1.b.val : ℝ) - (c2.b.val : ℝ)) * ((c1.b.val : ℝ) - (c2.b.val : ℝ)) ≤ 195075 := by
    have h1 := sq_diff_le_65025 (chan_nonneg c1.r) (chan_le c1.r)
      (chan_nonneg c2.r) (chan_le c2.r)
    have h2 := sq_diff_le_65025 (chan_nonneg c1.g) (chan_le c1.g)
      (chan_nonneg c2.g) (chan_le c2.g)
    have h3 := sq_diff_le_65025 (chan_nonneg c1.b) (chan_le c1.b)
      (chan_nonneg c2.b) (chan_le c2.b)
    linarith
  obtain ⟨haux1, haux2, haux3⟩ := sqrt_bound_aux _ hd0 hbound
  refine ⟨hform, ?_, ?_, ?_⟩
  · rw [hform]; exact haux1
  · rw [hform]; exact haux2
  · rw [hform]
    rw [haux3]
    constructor
    · intro hzero
      obtain ⟨hr, hg, hb⟩ := sum_sq_eq_zero hzero
      have hrv : c1.r = c2.r :=
        Fin.ext (by exact_mod_cast sub_eq_zero.mp hr)
      have hgv : c1.g = c2.g :=
        Fin.ext (by exact_mod_cast sub_eq_zero.mp hg)
      have hbv : c1.b = c2.b :=
        Fin.ext (by exact_mod_cast sub_eq_zero.mp hb)
      exact Color.ext3 hrv hgv hbv
    · intro h
      subst h
      ring

/-! ### Similarity cache (C8) -/

/-- The similarity metric is symmetric in its arguments. -/
lemma colorSimilarity_symm (c1 c2 : Color) :
    colorSimilarity c1 c2 = colorSimilarity c2 c1 := by
  unfold colorSimilarity
  ring_nf

/-- Cache well-formedness: every stored value is the metric's value for its
key.  Every cache reachable from the empty cache of a fresh grower satisfies
this (see `getCachedSimilarity_correct`). -/
def CacheWF (cache : SimCache) : Prop :=
  ∀ kv ∈ cache, kv.2 = colorSimilarity kv.1.1 kv.1.2

lemma cacheFind_mem : ∀ (cache : SimCache) (k : Color × Color) (v : ℝ),
    cacheFind cache k = some v → (k, v) ∈ cache
  | [], k, v, h => by simp [cacheFind] at h
  | (k', v') :: rest, k, v, h => by
    rw [cacheFind] at h
    by_cases hk : k' = k
    · rw [if_pos hk] at h
      subst hk
      obtain rfl : v' = v := by injection h
      exact List.mem_cons_self _ _
    · rw [if_neg hk] at h
      exact List.mem_cons_of_mem _ (cacheFind_mem rest k v h)

/-- On a well-formed cache, `getCachedSimilarity` returns exactly
`colorSimilarity c1 c2` (hit or miss) and preserves well-formedness. -/
lemma getCachedSimilarity_correct (cache : SimCache) (c1 c2 : Color)
    (h : CacheWF cache) :
    (getCachedSimilarity cache c1 c2).1 = colorSimilarity c1 c2
    ∧ CacheWF (getCachedSimilarity cache c1 c2).2 := by
  have hkey : colorSimilarity
      ((if colorLt c2 c1 then (c2, c1) else (c1, c2)) : Color × Color).1
      ((if colorLt c2 c1 then (c2, c1) else (c1, c2)) : Color × Color).2 =
      colorSimilarity c1 c2 := by
    by_cases hlt : colorLt c2 c1
    · rw [if_pos hlt]
      exact (colorSimilarity_symm c1 c2).symm
    · rw [if_neg hlt]
  unfold getCachedSimilarity
  cases hfind : cacheFind cache (if colorLt c2 c1 then (c2, c1) else (c1, c2)) with
  | none =>
    simp only [hfind]
    constructor
    · trivial
    · intro kv hkv
      rcases List.mem_cons.mp hkv with hkv | hkv
      · subst hkv
        exact hkey.symm
      · exact h kv hkv
  | some v =>
    simp only [hfind]
    have hv := h _ (cacheFind_mem cache _ v hfind)
    constructor
    · exact hv.trans hkey
    · exact h

/-- C8: on any well-formed (reachable) cache state, the cached similarity is
symmetric in its arguments, equals the metric `colorSimilarity`, and the
updated cache stays well-formed. -/
theorem getCachedSimilarity_cache_spec (cache : SimCache) (c1 c2 : Color)
    (h : CacheWF cache) :
    (getCachedSimilarity cache c1 c2).1 = (getCachedSimilarity cache c2 c1).1
    ∧ (getCachedSimilarity cache c1 c2).1 = colorSimilarity c1 c2
    ∧ CacheWF (getCachedSimilarity cache c1 c2).2 := by
  obtain ⟨h1, h2⟩ := getCachedSimilarity_correct cache c1 c2 h
  obtain ⟨h1', _⟩ := getCachedSimilarity_correct cache c2 c1 h
  refine ⟨?_, h1, h2⟩
  rw [h1, h1', colorSimilarity_symm]

/-- C8 witness: the empty cache of a fresh grower is well-formed, and the
theorem applies to it at concrete colors. -/
theorem getCachedSimilarity_cache_spec_witness :
    CacheWF [] ∧
    (getCachedSimilarity [] red blue).1 = (getCachedSimilarity [] blue red).1 := by
  have hWF : CacheWF [] := by
    intro kv hkv
    simp at hkv
  exact ⟨hWF, (getCachedSimilarity_cache_spec [] red blue hWF).1⟩

/-! ### Average color (C7, C10) -/

lemma foldl_addWrap {α : Type} (f : α → ℕ) :
    ∀ (l : List α) (a : ℕ), a < 2 ^ 32 →
      l.foldl (fun acc x => addWrap acc (f x)) a = (a + (l.map f).sum) % 2 ^ 32
  | [], a, ha => by
    simp only [List.foldl_nil, List.map_nil, List.sum_nil, Nat.add_zero]
    exact (Nat.mod_eq_of_lt ha).symm
  | x :: xs, a, ha => by
    rw [List.foldl_cons, foldl_addWrap f xs (addWrap a (f x)) (Nat.mod_lt _ (by norm_num)),
      addWrap]
    rw [Nat.mod_add_mod]
    simp [Nat.add_assoc]

lemma map_sum_le_255 {α : Type} (f : α → ℕ) (hf : ∀ x, f x ≤ 255) :
    ∀ l : List α, (l.map f).sum ≤ 255 * l.length
  | [] => by simp
  | x :: xs => by
    rw [List.map_cons, List.sum_cons, List.length_cons]
    have := map_sum_le_255 f hf xs
    have := hf x
    omega

/-- On any point list whose channel sums cannot wrap the `uint32_t`
accumulators, each output channel is the truncated arithmetic mean. -/
lemma avg_channel_eq {α : Type} (f : α → ℕ) (hf : ∀ x, f x ≤ 255)
    (l : List α) (hne : l ≠ []) (hlen : 255 * l.length < 2 ^ 32) :
    (l.foldl (fun acc x => addWrap acc (f x)) 0) / l.length % 256 =
      (l.map f).sum / l.length := by
  have hsum : (l.map f).sum ≤ 255 * l.length := map_sum_le_255 f hf l
  have hfold : l.foldl (fun acc x => addWrap acc (f x)) 0 = (l.map f).sum := by
    rw [foldl_addWrap f l 0 (by norm_num), Nat.zero_add,
      Nat.mod_eq_of_lt (by omega)]
  rw [hfold]
  have hpos : 0 < l.length := List.length_pos.mpr hne
  have hdivlt : (l.map f).sum / l.length < 256 := by
    rw [Nat.div_lt_iff_lt_mul hpos]
    have : 255 * l.length < 256 * l.length := by omega
    omega
  exact Nat.mod_eq_of_lt hdivlt

lemma chan_le_nat (v : Fin 256) : v.val ≤ 255 := Nat.lt_succ_iff.mp v.isLt

/-- Full characterization of `calculateAverageColor` below the wrap bound. -/
lemma calculateAverageColor_channels (points : List Point) (img : Image)
    (hne : points ≠ []) (hlen : points.length ≤ 16843009) :
    (Image.calculateAverageColor points img).r.val = trueMeanR points img
    ∧ (Image.calculateAverageColor points img).g.val = trueMeanG points img
    ∧ (Image.calculateAverageColor points img).b.val = trueMeanB points img := by
  have hwrap : 255 * points.length < 2 ^ 32 := by
    have : 255 * points.length ≤ 255 * 16843009 := Nat.mul_le_mul_left _ hlen
    omega
  refine ⟨?_, ?_, ?_⟩
  · rw [Image.calculateAverageColor, if_neg hne]
    have h := avg_channel_eq (fun p => (img.getPixel p.x p.y).r.val)
      (fun p => chan_le_nat _) points hne hwrap
    simp only at h
    exact h
  · rw [Image.calculateAverageColor, if_neg hne]
    have h := avg_channel_eq (fun p => (img.getPixel p.x p.y).g.val)
      (fun p => chan_le_nat _) points hne hwrap
    simp only at h
    exact h
  · rw [Image.calculateAverageColor, if_neg hne]
    have h := avg_channel_eq (fun p => (img.getPixel p.x p.y).b.val)
      (fun p => chan_le_nat _) points hne hwrap
    simp only at h
    exact h

/-- A point list one longer than the largest wrap-free length, repeating the
single pixel of `img1x1`. -/
def bigPts : List Point := List.replicate 16843010 ⟨0, 0⟩

lemma bigPts_length : bigPts.length = 16843010 := by
  rw [bigPts, List.length_replicate]

lemma bigPts_ne_nil : bigPts ≠ [] := by
  intro h
  have h2 := congrArg List.length h
  rw [bigPts_length] at h2
  simp at h2

/-- The red channel of `calculateAverageColor` on a non-empty list, spelled
out. -/
lemma calculateAverageColor_r (points : List Point) (img : Image)
    (hne : points ≠ []) :
    (Image.calculateAverageColor points img).r.val =
      (points.foldl (fun a p => addWrap a (img.getPixel p.x p.y).r.val) 0) /
        points.length % 256 := by
  rw [Image.calculateAverageColor, if_neg hne]
  rfl

lemma bigPts_wrap :
    (Image.calculateAverageColor bigPts img1x1).r.val = 0
    ∧ trueMeanR bigPts img1x1 = 255 := by
  have hlen : bigPts.length = 16843010 := bigPts_length
  have hpix : img1x1.getPixel 0 0 = white := by decide
  have hmap : bigPts.map (fun p => (img1x1.getPixel p.x p.y).r.val) =
      List.replicate 16843010 255 := by
    rw [bigPts, List.map_replicate]
    congr 1
  have hsum : (bigPts.map (fun p => (img1x1.getPixel p.x p.y).r.val)).sum =
      16843010 * 255 := by
    rw [hmap, List.sum_replicate, smul_eq_mul]
  have hfold : bigPts.foldl
      (fun a p => addWrap a (img1x1.getPixel p.x p.y).r.val) 0 = 254 := by
    have h := foldl_addWrap (fun p => (img1x1.getPixel p.x p.y).r.val)
      bigPts 0 (by norm_num)
    simp only at h
    rw [hsum, Nat.zero_add] at h
    rw [h]
    norm_num
  constructor
  · rw [calculateAverageColor_r bigPts img1x1 bigPts_ne_nil, hfold, hlen]
  · rw [trueMeanR, hsum, hlen]

/-- C7 counterexample: a non-empty list of 16,843,010 in-bounds points on
which `calculateAverageColor` returns red channel `0` although the true
truncated mean is `255` (the `uint32_t` channel sum wraps). -/
theorem calculateAverageColor_wrap_cex :
    (bigPts ≠ [] ∧ ∀ p ∈ bigPts, img1x1.inBounds p.x p.y)
    ∧ (Image.calculateAverageColor bigPts img1x1).r.val = 0
    ∧ trueMeanR bigPts img1x1 = 255 := by
  refine ⟨⟨bigPts_ne_nil, ?_⟩, bigPts_wrap⟩
  · intro p hp
    have := List.eq_of_mem_replicate hp
    subst this
    decide

/-- C7 (amended): the empty list yields the black sentinel, and for every
non-empty list of at most 16,843,009 in-bounds points the output channels
are the integer-truncated arithmetic means of the member pixels' channels. -/
theorem calculateAverageColor_mean_spec (points : List Point) (img : Image)
    (_hin : ∀ p ∈ points, img.inBounds p.x p.y) :
    (points = [] → Image.calculateAverageColor points img = Color.black)
    ∧ (points ≠ [] → points.length ≤ 16843009 →
        (Image.calculateAverageColor points img).r.val = trueMeanR points img
        ∧ (Image.calculateAverageColor points img).g.val = trueMeanG points img
        ∧ (Image.calculateAverageColor points img).b.val = trueMeanB points img) := by
  constructor
  · intro h
    rw [Image.calculateAverageColor, if_pos h]
  · intro hne hlen
    exact calculateAverageColor_channels points img hne hlen

/-- C7 witness: instantiation on a concrete two-point region of `img4x4`. -/
theorem calculateAverageColor_mean_spec_witness :
    (∀ p ∈ [(⟨0, 0⟩ : Point), ⟨2, 0⟩], img4x4.inBounds p.x p.y)
    ∧ ([(⟨0, 0⟩ : Point), ⟨2, 0⟩] ≠ [] ∧ ([(⟨0, 0⟩ : Point), ⟨2, 0⟩] : List Point).length ≤ 16843009)
    ∧ (Image.calculateAverageColor [⟨0, 0⟩, ⟨2, 0⟩] img4x4).r.val =
        trueMeanR [⟨0, 0⟩, ⟨2, 0⟩] img4x4 := by
  refine ⟨by decide, ⟨by decide, by decide⟩, ?_⟩
  exact ((calculateAverageColor_mean_spec [⟨0, 0⟩, ⟨2, 0⟩] img4x4 (by decide)).2
    (by decide) (by decide)).1

/-- C10: `uint32_t` channel sums — below 16,843,009 points the mean is
exact; at 16,843,010 points the sum can wrap and change the result. -/
theorem calculateAverageColor_u32_wrap :
    (∀ (points : List Point) (img : Image), points ≠ [] →
      points.length ≤ 16843009 →
        (Image.calculateAverageColor points img).r.val = trueMeanR points img
        ∧ (Image.calculateAverageColor points img).g.val = trueMeanG points img
        ∧ (Image.calculateAverageColor points img).b.val = trueMeanB points img)
    ∧ (Image.calculateAverageColor bigPts img1x1).r.val = 0
    ∧ trueMeanR bigPts img1x1 = 255 := by
  exact ⟨fun points img hne hlen =>
    calculateAverageColor_channels points img hne hlen, bigPts_wrap⟩

/-- C10 witness: the universal part applied to a concrete region. -/
theorem calculateAverageColor_u32_wrap_witness :
    ([(⟨0, 0⟩ : Point), ⟨1, 0⟩] ≠ [] ∧ ([(⟨0, 0⟩ : Point), ⟨1, 0⟩] : List Point).length ≤ 16843009)
    ∧ (Image.calculateAverageColor [⟨0, 0⟩, ⟨1, 0⟩] img2x1).g.val =
        trueMeanG [⟨0, 0⟩, ⟨1, 0⟩] img2x1 := by
  refine ⟨⟨by decide, by decide⟩, ?_⟩
  exact (calculateAverageColor_u32_wrap.1 [⟨0, 0⟩, ⟨1, 0⟩] img2x1
    (by decide) (by decide)).2.1

/-! ### Adaptive threshold (C5) -/

lemma foldl_add_real {α : Type} (f : α → ℝ) :
    ∀ (l : List α) (a : ℝ), l.foldl (fun acc x => acc + f x) a = a + (l.map f).sum
  | [], a => by simp
  | x :: xs, a => by
    rw [List.foldl_cons, foldl_add_real f xs (a + f x), List.map_cons, List.sum_cons]
    ring

/-- The wrapping mean loops agree with the exact truncated channel means as
long as the `uint32_t` sums cannot wrap. -/
lemma wrapMean_eq {f : Color → ℕ} (hf : ∀ c, f c ≤ 255) (cs : List Color)
    (hwrap : 255 * cs.length < 2 ^ 32) :
    (mk8 ((cs.foldl (fun a c => addWrap a (f c)) 0) / cs.length)).val =
      (cs.map f).sum / cs.length := by
  rcases eq_or_ne cs [] with h | h
  · subst h
    simp [mk8]
  · have h' := avg_channel_eq f hf cs h hwrap
    simpa [mk8] using h'

lemma windowAvgColor_r (cs : List Color) (hwrap : 255 * cs.length < 2 ^ 32) :
    ((windowAvgColor cs).r.val : ℕ) = channelSumR cs / cs.length :=
  wrapMean_eq (fun c => chan_le_nat c.r) cs hwrap

lemma windowAvgColor_g (cs : List Color) (hwrap : 255 * cs.length < 2 ^ 32) :
    ((windowAvgColor cs).g.val : ℕ) = channelSumG cs / cs.length :=
  wrapMean_eq (fun c => chan_le_nat c.g) cs hwrap

lemma windowAvgColor_b (cs : List Color) (hwrap : 255 * cs.length < 2 ^ 32) :
    ((windowAvgColor cs).b.val : ℕ) = channelSumB cs / cs.length :=
  wrapMean_eq (fun c => chan_le_nat c.b) cs hwrap

lemma windowVariance_eq_spec (cs : List Color)
    (hwrap : 255 * cs.length < 2 ^ 32) :
    windowVariance cs = specWindowVariance cs := by
  unfold windowVariance specWindowVariance
  simp only []
  rw [windowAvgColor_r cs hwrap, windowAvgColor_g cs hwrap, windowAvgColor_b cs hwrap]
  rw [foldl_add_real (fun c =>
    (((c.r.val : ℝ) - ((channelSumR cs / cs.length : ℕ) : ℝ)) *
      ((c.r.val : ℝ) - ((channelSumR cs / cs.length : ℕ) : ℝ)) +
     ((c.g.val : ℝ) - ((channelSumG cs / cs.length : ℕ) : ℝ)) *
      ((c.g.val : ℝ) - ((channelSumG cs / cs.length : ℕ) : ℝ)) +
     ((c.b.val : ℝ) - ((channelSumB cs / cs.length : ℕ) : ℝ)) *
      ((c.b.val : ℝ) - ((channelSumB cs / cs.length : ℕ) : ℝ)))) cs 0]
  rw [zero_add]

/-- C5: `calculateAdaptiveThreshold` computes exactly the spec's formula
`base + (1-base)·(1-min(1, variance·2))·0.3` over the clipped sampling
window (`hwrap` excludes `uint32_t` wrap of the window channel sums, which
is impossible at the default radius 3). -/
theorem calculateAdaptiveThreshold_eq_spec (img : Image) (base : ℝ)
    (x y radius : ℤ) (_hr : 0 ≤ radius) (_hb : img.inBounds x y)
    (hwrap : 255 * (windowColors img x y radius).length < 2 ^ 32) :
    calculateAdaptiveThreshold img base x y radius =
      adaptiveThresholdSpec img base x y radius := by
  unfold calculateAdaptiveThreshold adaptiveThresholdSpec
  simp only []
  rw [windowVariance_eq_spec _ hwrap]

/-- C5 witness: instantiation at the seed `(0,0)` of `img4x4` with the
default radius 3. -/
theorem calculateAdaptiveThreshold_eq_spec_witness :
    ((0 : ℤ) ≤ 3 ∧ img4x4.inBounds 0 0
      ∧ 255 * (windowColors img4x4 0 0 3).length < 2 ^ 32)
    ∧ calculateAdaptiveThreshold img4x4 0.9 0 0 3 =
        adaptiveThresholdSpec img4x4 0.9 0 0 3 := by
  refine ⟨⟨by norm_num, by decide, by decide⟩, ?_⟩
  exact calculateAdaptiveThreshold_eq_spec img4x4 0.9 0 0 3
    (by norm_num) (by decide) (by decide)

/-! ### Region growing: basic lemmas -/

lemma mem_getNeighbors_inBounds {img : Image} {x y : ℤ} {b : Bool} {p : Point}
    (h : p ∈ getNeighbors img x y b) : img.inBounds p.x p.y := by
  unfold getNeighbors at h
  simp only [] at h
  have := (List.mem_filter.mp h).2
  exact of_decide_eq_true this

lemma popMin_sound : ∀ (q : List QItem) (m : QItem) (rest : List QItem),
    popMin q = some (m, rest) → m ∈ q ∧ ∀ it ∈ rest, it ∈ q
  | [], m, rest, h => by simp [popMin] at h
  | h₀ :: t, m, rest, h => by
    rw [popMin] at h
    cases ht : popMin t with
    | none =>
      rw [ht] at h
      obtain ⟨rfl, rfl⟩ : h₀ = m ∧ ([] : List QItem) = rest := by
        injection h with h'
        exact ⟨congrArg Prod.fst h', congrArg Prod.snd h'⟩
      exact ⟨List.mem_cons_self _ _, by simp⟩
    | some pr =>
      obtain ⟨m', rest'⟩ := pr
      rw [ht] at h
      simp only [] at h
      obtain ⟨hm', hr'⟩ := popMin_sound t m' rest' ht
      by_cases hlt : m'.priority < h₀.priority
      · rw [if_pos hlt] at h
        obtain ⟨rfl, rfl⟩ : m' = m ∧ h₀ :: rest' = rest := by
          injection h with h'
          exact ⟨congrArg Prod.fst h', congrArg Prod.snd h'⟩
        refine ⟨List.mem_cons_of_mem _ hm', ?_⟩
        intro it hit
        rcases List.mem_cons.mp hit with rfl | hit
        · exact List.mem_cons_self _ _
        · exact List.mem_cons_of_mem _ (hr' it hit)
      · rw [if_neg hlt] at h
        obtain ⟨rfl, rfl⟩ : h₀ = m ∧ t = rest := by
          injection h with h'
          exact ⟨congrArg Prod.fst h', congrArg Prod.snd h'⟩
        exact ⟨List.mem_cons_self _ _, fun it hit => List.mem_cons_of_mem _ hit⟩

lemma seedPushes_points (img : Image) (seedColor : Color)
    (processed : ℤ → ℤ → Bool) :
    ∀ (ns : List Point) (cache : SimCache) (it : QItem),
      it ∈ (seedPushes img seedColor processed ns cache).1 → it.point ∈ ns
  | [], cache, it, h => by simp [seedPushes] at h
  | n :: ns, cache, it, h => by
    rw [seedPushes] at h
    by_cases hp : processed n.x n.y
    · rw [if_pos hp] at h
      exact List.mem_cons_of_mem _ (seedPushes_points img seedColor processed ns cache it h)
    · rw [if_neg hp] at h
      simp only [] at h
      rcases List.mem_cons.mp h with rfl | h
      · exact List.mem_cons_self _ _
      · exact List.mem_cons_of_mem _ (seedPushes_points img seedColor processed ns _ it h)

lemma neighborPushes_points (img : Image) (sc cc : Color) (thr : ℝ)
    (processed : ℤ → ℤ → Bool) (region : List Point) :
    ∀ (ns : List Point) (cache : SimCache) (it : QItem),
      it ∈ (neighborPushes img sc cc thr processed region ns cache).1 → it.point ∈ ns
  | [], cache, it, h => by simp [neighborPushes] at h
  | n :: ns, cache, it, h => by
    rw [neighborPushes] at h
    by_cases hskip : n ∈ region ∨ processed n.x n.y
    · rw [if_pos hskip] at h
      exact List.mem_cons_of_mem _
        (neighborPushes_points img sc cc thr processed region ns cache it h)
    · rw [if_neg hskip] at h
      simp only [] at h
      by_cases hbest :
          max (getCachedSimilarity cache sc (img.getPixel n.x n.y)).1
            (getCachedSimilarity (getCachedSimilarity cache sc (img.getPixel n.x n.y)).2
              cc (img.getPixel n.x n.y)).1 ≥ thr * 0.8
      · rw [if_pos hbest] at h
        rcases List.mem_cons.mp h with rfl | h
        · exact List.mem_cons_self _ _
        · exact List.mem_cons_of_mem _
            (neighborPushes_points img sc cc thr processed region ns _ it h)
      · rw [if_neg hbest] at h
        exact List.mem_cons_of_mem _
          (neighborPushes_points img sc cc thr processed region ns _ it h)

/-! ### The `maxRegionSize = 0` behaviour (C1, C2) -/

/-- When `static_cast<size_t>(maxRegionSize_) = 0`, the loop guard
`region.size() < static_cast<size_t>(maxRegionSize_)` is false at entry, so
the loop never runs. -/
lemma growLoop_stops (g : AdaptiveRegionGrower) (seedColor : Color)
    (baseThr : ℝ) (processed : ℤ → ℤ → Bool)
    (hmax : sizeTCast g.maxRegionSize = 0) :
    ∀ (fuel : ℕ) (s : GrowState),
      growLoop g seedColor baseThr processed fuel s = s.regionList
  | 0, s => rfl
  | fuel + 1, s => by
    rw [growLoop]
    have hnc : ¬(¬s.queue.isEmpty ∧ s.region.length < sizeTCast g.maxRegionSize) := by
      rintro ⟨-, h2⟩
      rw [hmax] at h2
      omega
    rw [if_neg hnc]

/-- C1: with `maxRegionSize = 0` the growth loop is never entered (the
`size_t` cast makes the guard false), so `findRegion` returns only the seed
even though the seed's identical neighbor is queued — `0` is not treated as
"unbounded". -/
theorem findRegion_maxRegionSize_zero_bug :
    findRegion ⟨img2x1, 0.9, 0, false⟩ 0 0 noneProcessed [] = [⟨0, 0⟩]
    ∧ (initState ⟨img2x1, 0.9, 0, false⟩ 0 0 noneProcessed []).queue ≠ [] := by
  constructor
  · unfold findRegion
    rw [growLoop_stops _ _ _ _ (by decide)]
    rfl
  · have hns : getNeighbors img2x1 0 0 true = [⟨1, 0⟩] := by decide
    unfold initState
    simp only []
    rw [hns, seedPushes]
    rw [if_neg (by decide : ¬noneProcessed (Point.mk 1 0).x (Point.mk 1 0).y = true)]
    simp only []
    exact List.cons_ne_nil _ _

/-- C2: the spec's concrete 4×4 two-halves scenario with
`similarityThreshold = 0.9`, adaptive mode on and `maxRegionSize = 0`
returns only the seed pixel — one point, not the expected 8. -/
theorem findRegion_scenario_4x4_bug :
    findRegion ⟨img4x4, 0.9, 0, true⟩ 0 0 noneProcessed [] = [⟨0, 0⟩]
    ∧ ([(⟨0, 0⟩ : Point)] : List Point).length = 1 := by
  constructor
  · unfold findRegion
    rw [growLoop_stops _ _ _ _ (by decide)]
    rfl
  · rfl

/-! ### Growth-loop invariants (C6) -/

/-- Invariant of a `findRegion` growth state. -/
structure LoopInv (g : AdaptiveRegionGrower) (processed : ℤ → ℤ → Bool)
    (seedPt : Point) (s : GrowState) : Prop where
  seed_mem : seedPt ∈ s.regionList
  mem_iff : ∀ p : Point, p ∈ s.region ↔ p ∈ s.regionList
  rl_inb : ∀ p ∈ s.regionList, g.image.inBounds p.x p.y
  rl_unproc : ∀ p ∈ s.regionList, processed p.x p.y = false
  rl_nodup : s.regionList.Nodup
  q_inb : ∀ it ∈ s.queue, g.image.inBounds it.point.x it.point.y

lemma processCandidate_preserves (g : AdaptiveRegionGrower) (seedColor : Color)
    (baseThr : ℝ) (processed : ℤ → ℤ → Bool) (current : QItem) (s : GrowState)
    (seedPt : Point)
    (hcur : g.image.inBounds current.point.x current.point.y)
    (hinv : LoopInv g processed seedPt s) :
    LoopInv g processed seedPt
      (processCandidate g seedColor baseThr processed current s) := by
  unfold processCandidate
  by_cases hskip : current.point ∈ s.region ∨ processed current.point.x current.point.y
  · rw [if_pos hskip]
    exact hinv
  · rw [if_neg hskip]
    push_neg at hskip
    obtain ⟨hmem, hproc⟩ := hskip
    simp only []
    by_cases hacc :
        (getCachedSimilarity s.cache seedColor
          (g.image.getPixel current.point.x current.point.y)).1 ≥
          (if g.adaptiveMode then
            min baseThr (calculateAdaptiveThreshold g.image g.similarityThreshold
              current.point.x current.point.y 3)
          else g.similarityThreshold)
    · rw [if_pos hacc]
      have hmem' : current.point ∉ s.regionList := fun hc =>
        hmem ((hinv.mem_iff current.point).mpr hc)
      refine ⟨?_, ?_, ?_, ?_, ?_, ?_⟩
      · exact List.mem_append_left _ hinv.seed_mem
      · intro p
        simp only [List.mem_cons, List.mem_append, List.mem_singleton]
        rw [hinv.mem_iff p]
        tauto
      · intro p hp
        rcases List.mem_append.mp hp with hp | hp
        · exact hinv.rl_inb p hp
        · rw [List.mem_singleton.mp hp]
          exact hcur
      · intro p hp
        rcases List.mem_append.mp hp with hp | hp
        · exact hinv.rl_unproc p hp
        · rw [List.mem_singleton.mp hp]
          exact Bool.not_eq_true _ ▸ (by simpa using hproc)
      · rw [List.nodup_append]
        exact ⟨hinv.rl_nodup, List.nodup_singleton _,
          fun p hp hp' => hmem' (List.mem_singleton.mp hp' ▸ hp)⟩
      · intro it hit
        rcases List.mem_append.mp hit with hit | hit
        · exact hinv.q_inb it hit
        · have := neighborPushes_points g.image seedColor
            (g.image.getPixel current.point.x current.point.y) _ processed
            (current.point :: s.region) _ _ it hit
          exact mem_getNeighbors_inBounds this
    · rw [if_neg hacc]
      exact ⟨hinv.seed_mem, hinv.mem_iff, hinv.rl_inb, hinv.rl_unproc,
        hinv.rl_nodup, hinv.q_inb⟩

lemma growLoop_inv (g : AdaptiveRegionGrower) (seedColor : Color)
    (baseThr : ℝ) (processed : ℤ → ℤ → Bool) (seedPt : Point) :
    ∀ (fuel : ℕ) (s : GrowState), LoopInv g processed seedPt s →
      seedPt ∈ growLoop g seedColor baseThr processed fuel s
      ∧ (∀ p ∈ growLoop g seedColor baseThr processed fuel s,
          g.image.inBounds p.x p.y)
      ∧ (∀ p ∈ growLoop g seedColor baseThr processed fuel s,
          processed p.x p.y = false)
      ∧ (growLoop g seedColor baseThr processed fuel s).Nodup
  | 0, s, hinv => ⟨hinv.seed_mem, hinv.rl_inb, hinv.rl_unproc, hinv.rl_nodup⟩
  | fuel + 1, s, hinv => by
    rw [growLoop]
    by_cases hcond : ¬s.queue.isEmpty ∧ s.region.length < sizeTCast g.maxRegionSize
    · rw [if_pos hcond]
      cases hpop : popMin s.queue with
      | none =>
        exact ⟨hinv.seed_mem, hinv.rl_inb, hinv.rl_unproc, hinv.rl_nodup⟩
      | some pr =>
        obtain ⟨current, rest⟩ := pr
        obtain ⟨hcurq, hrest⟩ := popMin_sound s.queue current rest hpop
        have hinv' : LoopInv g processed seedPt { s with queue := rest } :=
          ⟨hinv.seed_mem, hinv.mem_iff, hinv.rl_inb, hinv.rl_unproc,
            hinv.rl_nodup, fun it hit => hinv.q_inb it (hrest it hit)⟩
        exact growLoop_inv g seedColor baseThr processed seedPt fuel _
          (processCandidate_preserves g seedColor baseThr processed current _
            seedPt (hinv.q_inb current hcurq) hinv')
    · rw [if_neg hcond]
      exact ⟨hinv.seed_mem, hinv.rl_inb, hinv.rl_unproc, hinv.rl_nodup⟩

/-- C6: for an in-bounds unprocessed seed, the returned region contains the
seed, contains only in-bounds points, contains no point that was marked
processed when the call began, and has no duplicates. -/
theorem findRegion_invariants (g : AdaptiveRegionGrower) (seedX seedY : ℤ)
    (processed : ℤ → ℤ → Bool) (cache0 : SimCache)
    (hb : g.image.inBounds seedX seedY)
    (hproc : processed seedX seedY = false) :
    (⟨seedX, seedY⟩ : Point) ∈ findRegion g seedX seedY processed cache0
    ∧ (∀ p ∈ findRegion g seedX seedY processed cache0,
        g.image.inBounds p.x p.y)
    ∧ (∀ p ∈ findRegion g seedX seedY processed cache0,
        processed p.x p.y = false)
    ∧ (findRegion g seedX seedY processed cache0).Nodup := by
  unfold findRegion
  apply growLoop_inv
  refine ⟨List.mem_singleton_self _, fun p => Iff.rfl, ?_, ?_,
    List.nodup_singleton _, ?_⟩
  · intro p hp
    rw [List.mem_singleton.mp hp]
    exact hb
  · intro p hp
    rw [List.mem_singleton.mp hp]
    exact hproc
  · intro it hit
    have hq : (initState g seedX seedY processed cache0).queue =
        (seedPushes g.image (g.image.getPixel seedX seedY) processed
          (getNeighbors g.image seedX seedY true) cache0).1 := rfl
    rw [hq] at hit
    exact mem_getNeighbors_inBounds
      (seedPushes_points g.image _ processed _ cache0 it hit)

/-- C6 witness: a concrete call on `img4x4` at seed `(0,0)` with the
all-false mask. -/
theorem findRegion_invariants_witness :
    ((⟨img4x4, 0.9, 0, true⟩ : AdaptiveRegionGrower).image.inBounds 0 0
      ∧ noneProcessed 0 0 = false)
    ∧ (⟨0, 0⟩ : Point) ∈ findRegion ⟨img4x4, 0.9, 0, true⟩ 0 0 noneProcessed []
    ∧ (findRegion ⟨img4x4, 0.9, 0, true⟩ 0 0 noneProcessed []).Nodup := by
  have h := findRegion_invariants ⟨img4x4, 0.9, 0, true⟩ 0 0 noneProcessed []
    (by decide) (by decide)
  exact ⟨⟨by decide, by decide⟩, h.1, h.2.2.2⟩

/-! ### Acceptance and enqueueing conditions (C4) -/

/-- The effective threshold of the claim: in adaptive mode the minimum of
the adaptive threshold at the seed and at the candidate, otherwise the
configured base threshold. -/
noncomputable def adaptiveThresholdAt (g : AdaptiveRegionGrower)
    (seedX seedY cx cy : ℤ) : ℝ :=
  if g.adaptiveMode then
    min (calculateAdaptiveThreshold g.image g.similarityThreshold seedX seedY 3)
      (calculateAdaptiveThreshold g.image g.similarityThreshold cx cy 3)
  else g.similarityThreshold

/-- Full characterization of the neighbor-enqueueing loop on well-formed
caches: an item for `n` is pushed iff `n` is among the enumerated neighbors,
not yet a member, not processed, and its best similarity to the two anchors
reaches `thr * 0.8`; well-formedness is preserved. -/
lemma neighborPushes_correct (img : Image) (sc cc : Color) (thr : ℝ)
    (processed : ℤ → ℤ → Bool) (region : List Point) :
    ∀ (ns : List Point) (cache : SimCache), CacheWF cache →
      CacheWF (neighborPushes img sc cc thr processed region ns cache).2
      ∧ ∀ n : Point,
        ((∃ it ∈ (neighborPushes img sc cc thr processed region ns cache).1,
            it.point = n) ↔
          (n ∈ ns ∧ n ∉ region ∧ processed n.x n.y = false ∧
            max (colorSimilarity sc (img.getPixel n.x n.y))
              (colorSimilarity cc (img.getPixel n.x n.y)) ≥ thr * 0.8))
  | [], cache, hWF => by
    constructor
    · simpa [neighborPushes] using hWF
    · intro n
      simp [neighborPushes]
  | n₀ :: ns, cache, hWF => by
    rw [neighborPushes]
    by_cases hskip : n₀ ∈ region ∨ processed n₀.x n₀.y
    · rw [if_pos hskip]
      obtain ⟨hWF', hiff⟩ :=
        neighborPushes_correct img sc cc thr processed region ns cache hWF
      refine ⟨hWF', ?_⟩
      intro n
      rw [hiff n]
      constructor
      · rintro ⟨hns, hnr, hnp, hmax⟩
        exact ⟨List.mem_cons_of_mem _ hns, hnr, hnp, hmax⟩
      · rintro ⟨hns, hnr, hnp, hmax⟩
        rcases List.mem_cons.mp hns with rfl | hns
        · rcases hskip with h | h
          · exact absurd h hnr
          · rw [hnp] at h
            exact absurd h (by simp)
        · exact ⟨hns, hnr, hnp, hmax⟩
    · rw [if_neg hskip]
      push_neg at hskip
      obtain ⟨hnr0, hnp0⟩ := hskip
      have hnp0' : processed n₀.x n₀.y = false := by
        simpa using hnp0
      simp only []
      have h1 := getCachedSimilarity_correct cache sc (img.getPixel n₀.x n₀.y) hWF
      have h2 := getCachedSimilarity_correct
        (getCachedSimilarity cache sc (img.getPixel n₀.x n₀.y)).2 cc
        (img.getPixel n₀.x n₀.y) h1.2
      obtain ⟨hrec_wf, hrec_iff⟩ :=
        neighborPushes_correct img sc cc thr processed region ns _ h2.2
      by_cases hbest :
          max (getCachedSimilarity cache sc (img.getPixel n₀.x n₀.y)).1
            (getCachedSimilarity
              (getCachedSimilarity cache sc (img.getPixel n₀.x n₀.y)).2 cc
              (img.getPixel n₀.x n₀.y)).1 ≥ thr * 0.8
      · rw [if_pos hbest]
        refine ⟨hrec_wf, ?_⟩
        intro n
        constructor
        · rintro ⟨it, hit, rfl⟩
          rcases List.mem_cons.mp hit with rfl | hit
          · refine ⟨List.mem_cons_self _ _, hnr0, hnp0', ?_⟩
            rw [← h1.1, ← h2.1]
            exact hbest
          · obtain ⟨hns, hnr, hnp, hmax⟩ := (hrec_iff _).mp ⟨it, hit, rfl⟩
            exact ⟨List.mem_cons_of_mem _ hns, hnr, hnp, hmax⟩
        · rintro ⟨hns, hnr, hnp, hmax⟩
          rcases List.mem_cons.mp hns with rfl | hns
          · exact ⟨_, List.mem_cons_self _ _, rfl⟩
          · obtain ⟨it, hit, hpt⟩ := (hrec_iff n).mpr ⟨hns, hnr, hnp, hmax⟩
            exact ⟨it, List.mem_cons_of_mem _ hit, hpt⟩
      · rw [if_neg hbest]
        refine ⟨hrec_wf, ?_⟩
        intro n
        rw [hrec_iff n]
        constructor
        · rintro ⟨hns, hnr, hnp, hmax⟩
          exact ⟨List.mem_cons_of_mem _ hns, hnr, hnp, hmax⟩
        · rintro ⟨hns, hnr, hnp, hmax⟩
          rcases List.mem_cons.mp hns with rfl | hns
          · rw [h1.1, h2.1] at hbest
            exact absurd hmax hbest
          · exact ⟨hns, hnr, hnp, hmax⟩

/-- C4: a popped, unvisited, unprocessed candidate is accepted iff its
similarity to the seed reaches the adaptive threshold (the minimum of the
seed-location threshold and the candidate-location threshold in adaptive
mode); on acceptance, the pushed queue entries are exactly the unvisited,
unprocessed 8-connected neighbors whose best similarity to the seed color or
the candidate's color reaches `0.8 ×` that threshold. -/
theorem processCandidate_accept_enqueue_spec (g : AdaptiveRegionGrower)
    (seedColor : Color) (baseThr : ℝ) (processed : ℤ → ℤ → Bool)
    (current : QItem) (s : GrowState) (seedX seedY : ℤ)
    (hbase : baseThr = if g.adaptiveMode then
        calculateAdaptiveThreshold g.image g.similarityThreshold seedX seedY 3
      else g.similarityThreshold)
    (hWF : CacheWF s.cache)
    (hmem : current.point ∉ s.region)
    (hproc : processed current.point.x current.point.y = false) :
    (current.point ∈ (processCandidate g seedColor baseThr processed current s).region
      ↔ colorSimilarity seedColor
          (g.image.getPixel current.point.x current.point.y) ≥
          adaptiveThresholdAt g seedX seedY current.point.x current.point.y)
    ∧ (colorSimilarity seedColor
          (g.image.getPixel current.point.x current.point.y) ≥
          adaptiveThresholdAt g seedX seedY current.point.x current.point.y →
        (processCandidate g seedColor baseThr processed current s).queue =
          s.queue ++ (neighborPushes g.image seedColor
            (g.image.getPixel current.point.x current.point.y)
            (adaptiveThresholdAt g seedX seedY current.point.x current.point.y)
            processed (current.point :: s.region)
            (getNeighbors g.image current.point.x current.point.y true)
            (getCachedSimilarity s.cache seedColor
              (g.image.getPixel current.point.x current.point.y)).2).1
        ∧ ∀ n ∈ getNeighbors g.image current.point.x current.point.y true,
            ((∃ it ∈ (neighborPushes g.image seedColor
                (g.image.getPixel current.point.x current.point.y)
                (adaptiveThresholdAt g seedX seedY current.point.x current.point.y)
                processed (current.point :: s.region)
                (getNeighbors g.image current.point.x current.point.y true)
                (getCachedSimilarity s.cache seedColor
                  (g.image.getPixel current.point.x current.point.y)).2).1,
                it.point = n) ↔
              (n ∉ current.point :: s.region ∧ processed n.x n.y = false ∧
                max (colorSimilarity seedColor (g.image.getPixel n.x n.y))
                  (colorSimilarity
                    (g.image.getPixel current.point.x current.point.y)
                    (g.image.getPixel n.x n.y)) ≥
                  adaptiveThresholdAt g seedX seedY current.point.x
                    current.point.y * 0.8))) := by
  have hskip : ¬(current.point ∈ s.region ∨
      processed current.point.x current.point.y) := by
    rw [hproc]
    simp [hmem]
  have h1 := getCachedSimilarity_correct s.cache seedColor
    (g.image.getPixel current.point.x current.point.y) hWF
  have hthr : (if g.adaptiveMode then
        min baseThr (calculateAdaptiveThreshold g.image g.similarityThreshold
          current.point.x current.point.y 3)
      else g.similarityThreshold) =
      adaptiveThresholdAt g seedX seedY current.point.x current.point.y := by
    rw [hbase, adaptiveThresholdAt]
    by_cases hm : g.adaptiveMode
    · simp [hm]
    · simp [hm]
  unfold processCandidate
  rw [if_neg hskip]
  simp only []
  rw [hthr, h1.1]
  by_cases hacc : colorSimilarity seedColor
      (g.image.getPixel current.point.x current.point.y) ≥
      adaptiveThresholdAt g seedX seedY current.point.x current.point.y
  · rw [if_pos hacc]
    constructor
    · simp [hacc]
    · intro _
      refine ⟨rfl, ?_⟩
      intro n hn
      obtain ⟨-, hiff⟩ := neighborPushes_correct g.image seedColor
        (g.image.getPixel current.point.x current.point.y)
        (adaptiveThresholdAt g seedX seedY current.point.x current.point.y)
        processed (current.point :: s.region)
        (getNeighbors g.image current.point.x current.point.y true)
        (getCachedSimilarity s.cache seedColor
          (g.image.getPixel current.point.x current.point.y)).2 h1.2
      rw [hiff n]
      constructor
      · rintro ⟨-, hnr, hnp, hmax⟩
        exact ⟨hnr, hnp, hmax⟩
      · rintro ⟨hnr, hnp, hmax⟩
        exact ⟨hn, hnr, hnp, hmax⟩
  · rw [if_neg hacc]
    constructor
    · constructor
      · intro hc
        exact absurd hc hmem
      · intro hc
        exact absurd hc hacc
    · intro hc
      exact absurd hc hacc

/-- C4 witness: a concrete non-adaptive instantiation on `img2x1`. -/
theorem processCandidate_accept_enqueue_spec_witness :
    ((0.9 : ℝ) = (if (⟨img2x1, 0.9, 0, false⟩ : AdaptiveRegionGrower).adaptiveMode then
        calculateAdaptiveThreshold img2x1 0.9 0 0 3 else (0.9 : ℝ))
      ∧ CacheWF ([] : SimCache)
      ∧ (⟨0, ⟨1, 0⟩, 0⟩ : QItem).point ∉ ([] : List Point)
      ∧ noneProcessed (⟨1, 0⟩ : Point).x (⟨1, 0⟩ : Point).y = false)
    ∧ ((⟨0, ⟨1, 0⟩, 0⟩ : QItem).point ∈
        (processCandidate ⟨img2x1, 0.9, 0, false⟩ red 0.9 noneProcessed
          ⟨0, ⟨1, 0⟩, 0⟩ ⟨[], [], [], []⟩).region
        ↔ colorSimilarity red (img2x1.getPixel 1 0) ≥
            adaptiveThresholdAt ⟨img2x1, 0.9, 0, false⟩ 0 0 1 0) := by
  have hWF : CacheWF ([] : SimCache) := by
    intro kv hkv
    simp at hkv
  refine ⟨⟨by simp, hWF, by simp, rfl⟩, ?_⟩
  exact (processCandidate_accept_enqueue_spec ⟨img2x1, 0.9, 0, false⟩ red 0.9
    noneProcessed ⟨0, ⟨1, 0⟩, 0⟩ ⟨[], [], [], []⟩ 0 0 (by simp) hWF
    (by simp) rfl).1

end ic
